import Mathlib

/-!
# Verification of the chronicler Merkle-tree core

Shallow embedding, in Lean 4, of the Merkle-tree subsystem of the
`chronicler` repository and proofs of the specification claims about it.

The embedded source files are:
* `packages/chronicler-core/src/chronicler_core/merkle/models.py`
* `packages/chronicler-core/src/chronicler_core/merkle/tree.py`
* `packages/chronicler-core/src/chronicler_core/merkle/differ.py`
* `packages/chronicler-core/src/chronicler_core/freshness/checker.py`
* `chronicler/cli.py` (the blast-radius BFS)

Modelling conventions:
* machine words are `Nat` with explicit `% 2 ^ 32` where overflow matters;
* Python byte strings are `List Nat` (each entry a byte);
* Python `dict` is an insertion-ordered association list with unique keys;
* Python `tuple`/`list` of strings are distinguished (a `PySeq`), because
  `tuple(xs) == list(xs)` is `False` in Python and the repository's
  dataclasses compare field-wise with `==`;
* the filesystem is passed in explicitly, either as a finite map from
  resolved absolute paths (segment lists) to file contents, or as an
  oracle function, matching exactly how each Python function consumes it.
-/

namespace Chronicler

/-! ## Bytes, UTF-8 and hex -/

/-- UTF-8 encoding of a single Unicode code point, as bytes.
Models Python `str.encode()` for one character. -/
def utf8EncodeCodePoint (c : Nat) : List Nat :=
  if c < 0x80 then [c]
  else if c < 0x800 then [0xC0 + c / 0x40, 0x80 + c % 0x40]
  else if c < 0x10000 then
    [0xE0 + c / 0x1000, 0x80 + (c / 0x40) % 0x40, 0x80 + c % 0x40]
  else
    [0xF0 + c / 0x40000, 0x80 + (c / 0x1000) % 0x40,
     0x80 + (c / 0x40) % 0x40, 0x80 + c % 0x40]

/-- The UTF-8 bytes of a string: Python `s.encode()`. -/
def strBytes (s : String) : List Nat :=
  (s.data.map (fun c => utf8EncodeCodePoint c.toNat)).flatten

/-- Lower-case hex digit for a value `< 16`. -/
def hexChar (n : Nat) : Char :=
  if n < 10 then Char.ofNat (48 + n) else Char.ofNat (87 + n)

/-- Two lower-case hex characters of one byte. -/
def byteHex (b : Nat) : List Char :=
  [hexChar (b / 16 % 16), hexChar (b % 16)]

/-! ## SHA-256 (FIPS 180-4), on `Nat` words mod `2 ^ 32`

Models Python `hashlib.sha256`.  All word arithmetic is `Nat` reduced
mod `2 ^ 32`. -/

/-- 32-bit truncation. -/
def w32 (n : Nat) : Nat := n % 4294967296

/-- Rotate a 32-bit word right by `n` bits, expressed with division and
remainder on `Nat`. -/
def rotr (n x : Nat) : Nat := w32 (x / 2 ^ n + x % 2 ^ n * 2 ^ (32 - n))

/-- The 64 SHA-256 round constants. -/
def sha256K : List Nat :=
  [0x428A2F98, 0x71374491, 0xB5C0FBCF, 0xE9B5DBA5, 0x3956C25B, 0x59F111F1,
   0x923F82A4, 0xAB1C5ED5, 0xD807AA98, 0x12835B01, 0x243185BE, 0x550C7DC3,
   0x72BE5D74, 0x80DEB1FE, 0x9BDC06A7, 0xC19BF174, 0xE49B69C1, 0xEFBE4786,
   0x0FC19DC6, 0x240CA1CC, 0x2DE92C6F, 0x4A7484AA, 0x5CB0A9DC, 0x76F988DA,
   0x983E5152, 0xA831C66D, 0xB00327C8, 0xBF597FC7, 0xC6E00BF3, 0xD5A79147,
   0x06CA6351, 0x14292967, 0x27B70A85, 0x2E1B2138, 0x4D2C6DFC, 0x53380D13,
   0x650A7354, 0x766A0ABB, 0x81C2C92E, 0x92722C85, 0xA2BFE8A1, 0xA81A664B,
   0xC24B8B70, 0xC76C51A3, 0xD192E819, 0xD6990624, 0xF40E3585, 0x106AA070,
   0x19A4C116, 0x1E376C08, 0x2748774C, 0x34B0BCB5, 0x391C0CB3, 0x4ED8AA4A,
   0x5B9CCA4F, 0x682E6FF3, 0x748F82EE, 0x78A5636F, 0x84C87814, 0x8CC70208,
   0x90BEFFFA, 0xA4506CEB, 0xBEF9A3F7, 0xC67178F2]

/-- The SHA-256 initial hash value. -/
def sha256Init : List Nat :=
  [0x6A09E667, 0xBB67AE85, 0x3C6EF372, 0xA54FF53A,
   0x510E527F, 0x9B05688C, 0x1F83D9AB, 0x5BE0CD19]

/-- Big-endian packing of bytes into 32-bit words (complete groups of 4). -/
def bytesToWords : List Nat → List Nat
  | b0 :: b1 :: b2 :: b3 :: rest =>
    (((b0 * 256 + b1) * 256 + b2) * 256 + b3) :: bytesToWords rest
  | _ => []

/-- Big-endian bytes of one 32-bit word. -/
def wordBytes (x : Nat) : List Nat :=
  [x / 16777216 % 256, x / 65536 % 256, x / 256 % 256, x % 256]

/-- Small sigma 0 of the message schedule. -/
def ssig0 (x : Nat) : Nat := w32 (Nat.xor (Nat.xor (rotr 7 x) (rotr 18 x)) (x / 8))

/-- Small sigma 1 of the message schedule. -/
def ssig1 (x : Nat) : Nat := w32 (Nat.xor (Nat.xor (rotr 17 x) (rotr 19 x)) (x / 1024))

/-- Big sigma 0 of the compression function. -/
def bsig0 (x : Nat) : Nat := Nat.xor (Nat.xor (rotr 2 x) (rotr 13 x)) (rotr 22 x)

/-- Big sigma 1 of the compression function. -/
def bsig1 (x : Nat) : Nat := Nat.xor (Nat.xor (rotr 6 x) (rotr 11 x)) (rotr 25 x)

/-- SHA-256 choice function. -/
def sha256Ch (e f g : Nat) : Nat :=
  Nat.xor (Nat.land e f) (Nat.land (Nat.xor e 4294967295) g)

/-- SHA-256 majority function. -/
def sha256Maj (a b c : Nat) : Nat :=
  Nat.xor (Nat.xor (Nat.land a b) (Nat.land a c)) (Nat.land b c)

/-- Extend a 16-word block to the 64-word message schedule:
`k` more words are appended. -/
def extendSchedule : Nat → List Nat → List Nat
  | 0, ws => ws
  | k + 1, ws =>
    let i := ws.length
    let nw := w32 (ws.getD (i - 16) 0 + ssig0 (ws.getD (i - 15) 0) +
                   ws.getD (i - 7) 0 + ssig1 (ws.getD (i - 2) 0))
    extendSchedule k (ws ++ [nw])

/-- One round of the SHA-256 compression function on the 8-word state. -/
def sha256Round (st : List Nat) (kw : Nat × Nat) : List Nat :=
  match st with
  | [a, b, c, d, e, f, g, h] =>
    let t1 := w32 (h + bsig1 e + sha256Ch e f g + kw.1 + kw.2)
    let t2 := w32 (bsig0 a + sha256Maj a b c)
    [w32 (t1 + t2), a, b, c, w32 (d + t1), e, f, g]
  | other => other

/-- Process one 64-byte block: schedule, 64 rounds, add back. -/
def sha256Compress (hs : List Nat) (block : List Nat) : List Nat :=
  let ws := extendSchedule 48 (bytesToWords block)
  let fin := (sha256K.zip ws).foldl sha256Round hs
  (hs.zip fin).map (fun p => w32 (p.1 + p.2))

/-- Fold the compression function over all 64-byte blocks.  The first
argument is structural-recursion fuel; each step consumes 64 bytes, so any
fuel at least `msg.length` runs the loop to completion. -/
def sha256BlocksAux : Nat → List Nat → List Nat → List Nat
  | 0, hs, _ => hs
  | _ + 1, hs, [] => hs
  | fuel + 1, hs, msg =>
    sha256BlocksAux fuel (sha256Compress hs (msg.take 64)) (msg.drop 64)

/-- Fold the compression function over all 64-byte blocks of `msg`. -/
def sha256Blocks (hs : List Nat) (msg : List Nat) : List Nat :=
  sha256BlocksAux msg.length hs msg

/-- SHA-256 padding: `0x80`, zeros to 56 mod 64, 8-byte big-endian bit length. -/
def sha256Pad (msg : List Nat) : List Nat :=
  let len := msg.length
  let zeros := (119 - len % 64) % 64
  let bitLen := 8 * len
  msg ++ [0x80] ++ List.replicate zeros 0 ++
    [bitLen / 2 ^ 56 % 256, bitLen / 2 ^ 48 % 256, bitLen / 2 ^ 40 % 256,
     bitLen / 2 ^ 32 % 256, bitLen / 2 ^ 24 % 256, bitLen / 2 ^ 16 % 256,
     bitLen / 2 ^ 8 % 256, bitLen % 256]

/-- SHA-256 digest (32 bytes) of a byte string. -/
def sha256 (msg : List Nat) : List Nat :=
  ((sha256Blocks sha256Init (sha256Pad msg)).map wordBytes).flatten

/-- The full lower-case hex digest of SHA-256:
Python `hashlib.sha256(content).hexdigest()`. -/
def sha256Hexdigest (msg : List Nat) : String :=
  String.mk ((sha256 msg).map byteHex).flatten

/-- `compute_hash` from `merkle/tree.py`:
SHA-256 hash, truncated to the first 12 hex characters. -/
def compute_hash (content : List Nat) : String :=
  String.mk ((sha256Hexdigest content).data.take 12)

/-! ## String and sequence helpers -/

/-- Code-point lexicographic order on character lists (weak form), as
Python compares `str` values. -/
def charsLe : List Char → List Char → Bool
  | [], _ => true
  | _ :: _, [] => false
  | c :: cs, d :: ds => if c = d then charsLe cs ds else decide (c < d)

/-- Code-point lexicographic order on character lists (strict form). -/
def charsLt : List Char → List Char → Bool
  | [], [] => false
  | [], _ :: _ => true
  | _ :: _, [] => false
  | c :: cs, d :: ds => if c = d then charsLt cs ds else decide (c < d)

/-- Python `a <= b` on strings: code points compared left to right. -/
def strLe (a b : String) : Bool := charsLe a.data b.data

/-- Sort a list of strings lexicographically.  Models Python `sorted` on
`str` values: both orders compare code points left to right. -/
def sortStr (l : List String) : List String :=
  l.insertionSort (fun a b => strLe a b = true)

/-- Keep the first occurrence of every element.  Models iterating a Python
set or `dict.fromkeys`: duplicates after the first are dropped.  The first
argument is structural-recursion fuel, at least the list length. -/
def dedupFirstAux : Nat → List String → List String
  | 0, _ => []
  | _ + 1, [] => []
  | fuel + 1, x :: xs => x :: dedupFirstAux fuel (xs.filter (fun y => y != x))

/-- Keep the first occurrence of every element of `l`. -/
def dedupFirst (l : List String) : List String :=
  dedupFirstAux l.length l

/-! ## Path model

POSIX paths are segment lists.  A relative path string is parsed the way
`pathlib.PurePosixPath` parses it: split on `/`, drop empty segments and
`.` segments, keep `..` segments.  An absolute path is the segment list
after the leading `/`.  `resolveAbs` performs the purely lexical part of
`Path.resolve()` (the model has no symlinks): `..` pops one segment and at
the root it stays at the root. -/

/-- Split a string at `/` characters (Python `str.split("/")`-style;
the segment accumulator is in reverse order). -/
def splitSegsAux : List Char → List Char → List String
  | [], cur => [String.mk cur.reverse]
  | c :: rest, cur =>
    if c = '/' then String.mk cur.reverse :: splitSegsAux rest []
    else splitSegsAux rest (c :: cur)

/-- Parse a relative path string into `PurePosixPath.parts`. -/
def parseRel (s : String) : List String :=
  (splitSegsAux s.data []).filter (fun seg => seg != "" && seg != ".")

/-- Join strings with a separator. -/
def joinWith (sep : String) : List String → String
  | [] => ""
  | [x] => x
  | x :: y :: xs => x ++ sep ++ joinWith sep (y :: xs)

/-- `str()` of a relative `PurePosixPath`: segments joined by `/`, and `.`
for the empty path. -/
def pathStr (segs : List String) : String :=
  if segs.isEmpty then "." else joinWith "/" segs

/-- `str()` of an absolute path given by its segments. -/
def absStr (segs : List String) : String :=
  "/" ++ joinWith "/" segs

/-- Lexical resolution of an absolute path's segments: `..` pops one
segment (a `..` at the root stays at the root), other segments append. -/
def resolveAbs (segs : List String) : List String :=
  segs.foldl
    (fun acc seg =>
      if seg = ".." then acc.dropLast
      else if seg = "." || seg = "" then acc
      else acc ++ [seg])
    []

/-- Python `str(Path(a) / b)` for a non-empty relative `b`. -/
def pathJoin (a b : String) : String :=
  if a = "" then b else if b = "" then a else a ++ "/" ++ b

/-- `PurePosixPath.stem`: the final path component without its last
suffix.  A dot that is the first or the last character of the name does
not open a suffix (pathlib's rule `0 < i < len(name) - 1`). -/
def stemOfName (name : String) : String :=
  let cs := name.data
  let dots := (List.range cs.length).filter (fun i => cs.getD i ' ' = '.')
  match dots.getLast? with
  | some i => if 0 < i && i + 1 < cs.length then String.mk (cs.take i) else name
  | none => name

/-- `PurePosixPath.with_suffix("")` on a path given as segments: the last
segment loses its suffix.  (Python raises on an empty name; the build
never calls it that way, the model is total and leaves `[]` unchanged.) -/
def withSuffixEmpty (segs : List String) : List String :=
  match segs.getLast? with
  | some last => segs.dropLast ++ [stemOfName last]
  | none => []

/-! ## Data model (`merkle/models.py`)

`MerkleNode` and `MerkleDiff` are frozen dataclasses; their sequence
fields are annotated `tuple[str, ...]` with `()` defaults, but some call
sites pass Python lists, which a plain dataclass stores unchanged.  Python
equality distinguishes `(…) == […]` (always `False`), so the embedding
keeps the constructor: `PySeq.tup` is a Python tuple of strings,
`PySeq.lst` a Python list of strings. -/

/-- A Python sequence of strings that is either a tuple or a list.
Python `==` on a tuple and a list is `False` even element-wise equal,
which the derived `DecidableEq` mirrors. -/
inductive PySeq where
  | tup : List String → PySeq
  | lst : List String → PySeq
deriving DecidableEq, Repr

/-- The underlying elements of a `PySeq`. -/
def PySeq.toList : PySeq → List String
  | .tup l => l
  | .lst l => l

/-- A Python `datetime`, modelled opaquely by its canonical ISO-8601
string: `datetime.isoformat` and `datetime.fromisoformat` are exact
stdlib inverses, which is all the repository relies on. -/
structure PyDatetime where
  iso : String
deriving DecidableEq, Repr

/-- `datetime.isoformat()`. -/
def PyDatetime.isoformat (d : PyDatetime) : String := d.iso

/-- `datetime.fromisoformat()`. -/
def PyDatetime.fromisoformat (s : String) : PyDatetime := ⟨s⟩

/-- `MerkleNode` from `merkle/models.py`: a node in the Merkle tree,
representing either a file or directory. -/
structure MerkleNode where
  path : String
  hash : String
  children : PySeq := .tup []
  source_hash : Option String := none
  doc_hash : Option String := none
  doc_path : Option String := none
  stale : Bool := false
deriving DecidableEq, Repr

/-- The `[a-f0-9]{12}` full-match check of `MerkleNode.__post_init__`:
exactly 12 characters, each a lower-case hex digit. -/
def isHex12 (s : String) : Bool :=
  s.length == 12 &&
    s.data.all (fun c => ('a' ≤ c && c ≤ 'f') || ('0' ≤ c && c ≤ '9'))

/-- Constructing a `MerkleNode` in Python runs `__post_init__`, which
raises `ValueError` unless the hash matches `[a-f0-9]{12}` in full.  The
smart constructor returns the error instead of raising. -/
def MerkleNode.mk? (path hash : String) (children : PySeq := .tup [])
    (source_hash : Option String := none) (doc_hash : Option String := none)
    (doc_path : Option String := none) (stale : Bool := false) :
    Except String MerkleNode :=
  if isHex12 hash then
    .ok { path := path, hash := hash, children := children,
          source_hash := source_hash, doc_hash := doc_hash,
          doc_path := doc_path, stale := stale }
  else
    .error ("hash must be 12-char hex, got " ++ hash)

/-- `MerkleDiff` from `merkle/models.py`: result of comparing two trees. -/
structure MerkleDiff where
  changed : PySeq := .tup []
  added : PySeq := .tup []
  removed : PySeq := .tup []
  stale : PySeq := .tup []
  root_changed : Bool := false
  old_root_hash : String := ""
  new_root_hash : String := ""
deriving DecidableEq, Repr

/-- `MerkleTree` from `merkle/tree.py`.  `nodes` is the Python dict
`path -> MerkleNode`, kept as an insertion-ordered association list.  The
class attributes `version = 1` and `algorithm = "sha256"` are constants
used by serialization. -/
structure MerkleTree where
  root_hash : String
  nodes : List (String × MerkleNode)
  last_scan : PyDatetime
  root_path : String := ""
deriving DecidableEq, Repr

/-- Python dict lookup `t.nodes.get(p)` / `t.nodes[p]`. -/
def MerkleTree.findNode (t : MerkleTree) (p : String) : Option MerkleNode :=
  (t.nodes.find? (fun kv => kv.1 = p)).map (·.2)

/-- Python dict membership of a key list: keys of a dict are unique. -/
def keysNodup (t : MerkleTree) : Prop :=
  (t.nodes.map (·.1)).Nodup

/-! ## Filesystem model

A finite filesystem: resolved absolute file paths (as segment lists)
mapped to file contents (bytes).  `is_file` and reads resolve `..`
segments lexically, as the OS does in a world without symlinks. -/

/-- A finite filesystem snapshot. -/
def FS := List (List String × List Nat)

/-- `Path.is_file()` against the snapshot. -/
def fsIsFile (fs : FS) (p : List String) : Bool :=
  (fs.find? (fun e => e.1 == resolveAbs p)).isSome

/-- `Path.read_bytes()` against the snapshot. -/
def readFile (fs : FS) (p : List String) : Option (List Nat) :=
  (fs.find? (fun e => e.1 == resolveAbs p)).map (·.2)

/-- `compute_file_hash` from `merkle/tree.py`: read a file from disk and
return its truncated SHA-256 hash.  (An unreadable file is an `IOError`
in Python; the build only calls this on paths that exist.) -/
def compute_file_hash (fs : FS) (p : List String) : String :=
  compute_hash ((readFile fs p).getD [])

/-- `compute_merkle_hash` from `merkle/tree.py`: sorts the child hashes
lexicographically, joins them, then hashes the UTF-8 bytes of the result. -/
def compute_merkle_hash (child_hashes : List String) : String :=
  compute_hash (strBytes (String.join (sortStr child_hashes)))

/-- `DEFAULT_IGNORE` from `merkle/tree.py`. -/
def DEFAULT_IGNORE : List String :=
  [".git", "node_modules", "build", "dist", "__pycache__", ".venv"]

/-- `_matches_any` from `merkle/tree.py`: whether any component of the
path matches one of the patterns. -/
def matchesAny (parts : List String) (patterns : List String) : Bool :=
  parts.any (fun part => patterns.contains part)

/-! ## Doc pairing (`_find_doc_for_source` from `merkle/tree.py`) -/

/-- `_find_doc_for_source`: try to locate a `.tech.md` paired with a
source file.  Strategy 1 looks for `<doc_dir>/<stem>.tech.md` next to the
source file; strategy 2 looks for `<doc_dir>/<component_id>.tech.md` at
the root, where `component_id` replaces slashes with dashes.  Each
candidate is guarded: its lexically resolved location must still be
inside the resolved root, and a file must exist there.  The `is_file`
oracle is a parameter so the guard can be studied for any on-disk state.
Returns the candidate as absolute segments (the Python function returns
the `Path` object). -/
def find_doc_for_source (is_file : List String → Bool)
    (source_rel doc_dir : String) (root : List String) :
    Option (List String) :=
  let src := parseRel source_rel
  let stem := stemOfName (src.getLast?.getD "")
  let sibling_doc := root ++ src.dropLast ++ parseRel doc_dir ++
    [stem ++ ".tech.md"]
  if (resolveAbs root).isPrefixOf (resolveAbs sibling_doc) &&
      is_file sibling_doc then
    some sibling_doc
  else
    let component_id := String.mk
      ((pathStr (withSuffixEmpty src)).data.map
        (fun c => if c = '/' || c = '\\' then '-' else c))
    let root_doc := root ++ parseRel doc_dir ++ [component_id ++ ".tech.md"]
    if (resolveAbs root).isPrefixOf (resolveAbs root_doc) &&
        is_file root_doc then
      some root_doc
    else
      none

/-! ## Tree build (`MerkleTree.build` from `merkle/tree.py`) -/

/-- Dict key string for a directory given as segments: the empty string
denotes the root (Python turns `"."` into `""`). -/
def keyStr (segs : List String) : String := joinWith "/" segs

/-- Python dict assignment `m[k] = v`: replace in place if the key
exists, else append. -/
def dictSet (m : List (String × MerkleNode)) (k : String) (v : MerkleNode) :
    List (String × MerkleNode) :=
  if (m.find? (fun kv => kv.1 == k)).isSome then
    m.map (fun kv => if kv.1 == k then (kv.1, v) else kv)
  else m ++ [(k, v)]

/-- `children_map[k].append(v)` on a `defaultdict(list)`: a missing key is
created at the end of the dict. -/
def cmAppend (m : List (List String × List String)) (k : List String)
    (v : String) : List (List String × List String) :=
  if (m.find? (fun kv => kv.1 == k)).isSome then
    m.map (fun kv => if kv.1 == k then (kv.1, kv.2 ++ [v]) else kv)
  else m ++ [(k, [v])]

/-- The ancestor-chain walk of the build loop: starting from a file's
parent directory, registers every directory as a child of its own parent,
up to the root.  Returns the `(ancestor, cur)` registration pairs in loop
order; `cur` is registered under its Python string form.  The first
argument is structural-recursion fuel; the chain loses one segment per
step, so the segment count is enough fuel. -/
def ancestorPairsAux : Nat → List String → List (List String × String)
  | 0, _ => []
  | _ + 1, [] => []
  | fuel + 1, cur =>
    let anc := cur.dropLast
    (anc, keyStr cur) :: ancestorPairsAux fuel anc

/-- All `(ancestor, cur)` registrations for a parent directory. -/
def ancestorPairs (parent : List String) : List (List String × String) :=
  ancestorPairsAux parent.length parent

/-- Lexicographic order on segment lists, as Python compares `Path`
objects (their `parts` tuples). -/
def lexLe : List String → List String → Bool
  | [], _ => true
  | _ :: _, [] => false
  | x :: xs, y :: ys => if x = y then lexLe xs ys else charsLt x.data y.data

/-- Sort paths as Python `sorted` sorts `Path` objects. -/
def sortPaths (l : List (List String)) : List (List String) :=
  l.insertionSort (fun a b => lexLe a b = true)

/-- Sort directory keys by segment depth, deepest first
(`sorted(children_map.keys(), key=_depth, reverse=True)`). -/
def sortByDepthDesc (l : List (List String)) : List (List String) :=
  l.insertionSort (fun a b => b.length ≤ a.length)

/-- Dict lookup in the children map. -/
def cmGet (m : List (List String × List String)) (k : List String) :
    List String :=
  ((m.find? (fun kv => kv.1 == k)).map (·.2)).getD []

/-- Node-dict lookup returning the hash (`nodes[c].hash`; the `KeyError`
case cannot occur in the build, the default is never used). -/
def nodeHashAt (nodes : List (String × MerkleNode)) (c : String) : String :=
  (((nodes.find? (fun kv => kv.1 == c)).map (·.2)).map MerkleNode.hash).getD ""

/-- `MerkleTree.build` from `merkle/tree.py`: walk `root_path` and
construct a full Merkle tree.  Files whose relative path has a segment in
the ignore set are skipped.  For each source file a paired `.tech.md` is
searched via `find_doc_for_source`.  Directory nodes are folded
bottom-up, deepest first.  `now` stands for `datetime.now(timezone.utc)`.

Mirrors the Python loop: per file, create the file node, register the
file under its parent in the children map, then walk the ancestor chain;
afterwards dedupe children lists, build directory nodes (children stored
as a sorted Python *list* — `tree.py` passes `sorted(child_paths)`), and
fall back to `compute_hash(b"")` when no root node exists. -/
def MerkleTree.build (fs : FS) (root_path : List String)
    (doc_dir : String := ".chronicler")
    (ignore_patterns : List String := [])
    (now : PyDatetime := ⟨""⟩) : MerkleTree :=
  let root := resolveAbs root_path
  let ignore := DEFAULT_IGNORE ++ ignore_patterns
  let all_files : List (List String) :=
    ((sortPaths ((fs.map (·.1)).filter
        (fun p => root.isPrefixOf p))).map
      (fun p => p.drop root.length)).filter
      (fun rel => !(matchesAny rel ignore))
  let step := fun (st : List (String × MerkleNode) ×
      List (List String × List String)) (relSegs : List String) =>
    let rel := keyStr relSegs
    let source_hash := compute_file_hash fs (root ++ relSegs)
    let doc := find_doc_for_source (fsIsFile fs) rel doc_dir root
    let doc_hash := doc.map (fun d => compute_file_hash fs d)
    let doc_path := doc.map (fun d => pathStr (d.drop root.length))
    let node : MerkleNode :=
      { path := rel, hash := source_hash, source_hash := some source_hash,
        doc_hash := doc_hash, doc_path := doc_path }
    let nodes := dictSet st.1 rel node
    let parent := relSegs.dropLast
    let cm := cmAppend st.2 parent rel
    let cm := (ancestorPairs parent).foldl
      (fun m pr => cmAppend m pr.1 pr.2) cm
    (nodes, cm)
  let built := all_files.foldl step ([], [])
  let cm := built.2.map (fun kv => (kv.1, dedupFirst kv.2))
  let dir_keys := sortByDepthDesc (cm.map (·.1))
  let nodes := dir_keys.foldl
    (fun nodes dpath =>
      let child_paths := cmGet cm dpath
      let sortedChildren := sortStr child_paths
      let child_hashes := sortedChildren.map (nodeHashAt nodes)
      let dir_hash := compute_merkle_hash child_hashes
      dictSet nodes (keyStr dpath)
        { path := keyStr dpath, hash := dir_hash,
          children := .lst sortedChildren })
    built.1
  let root_hash :=
    match nodes.find? (fun kv => kv.1 == "") with
    | some kv => kv.2.hash
    | none => compute_hash []
  { root_hash := root_hash, nodes := nodes, last_scan := now,
    root_path := absStr root }

/-! ## Drift detection -/

/-- The runtime error raised by assigning to a field of a frozen
dataclass instance. -/
def frozenErrMsg : String :=
  "FrozenInstanceError: cannot assign to field stale"

/-- The loop of `MerkleTree.check_drift` from `merkle/tree.py`.  `disk`
maps an absolute path string to the truncated hash of the file there
(`compute_file_hash`), or `none` when `is_file()` is false.  Because
`MerkleNode` is `@dataclass(frozen=True)` (`merkle/models.py`), the
statement `node.stale = True` raises `FrozenInstanceError`, so the first
drifted node aborts the loop with that error; the error propagates out of
`check_drift` and nothing is mutated. -/
def checkDriftLoop (root_path : String) (disk : String → Option String) :
    List (String × MerkleNode) → Except String (List MerkleNode)
  | [] => .ok []
  | (_, n) :: rest =>
    match n.source_hash with
    | none => checkDriftLoop root_path disk rest
    | some sh =>
      match disk (pathJoin root_path n.path) with
      | none => checkDriftLoop root_path disk rest
      | some current =>
        if current ≠ sh then .error frozenErrMsg
        else checkDriftLoop root_path disk rest

/-- `MerkleTree.check_drift` from `merkle/tree.py`: re-hash source files
on disk; intended to return nodes whose source changed, but see
`checkDriftLoop` for the frozen-dataclass failure. -/
def MerkleTree.check_drift (t : MerkleTree)
    (disk : String → Option String) : Except String (List MerkleNode) :=
  checkDriftLoop t.root_path disk t.nodes

namespace MerkleTreeDiffer

/-- `MerkleTreeDiffer.check_drift` from `merkle/differ.py`: re-hash
source files on disk; for every drifted node, replace the node in the
tree's node map by a copy with `stale = True` (via `dataclasses.replace`)
and collect the updated node.  Iterates over a snapshot of
`tree.nodes.items()` while assigning into the map, which the fold
mirrors by walking the original list and threading the updated tree. -/
def check_drift (t : MerkleTree) (disk : String → Option String) :
    MerkleTree × List MerkleNode :=
  t.nodes.foldl
    (fun st kv =>
      match kv.2.source_hash with
      | none => st
      | some sh =>
        match disk (pathJoin t.root_path kv.2.path) with
        | none => st
        | some current =>
          if current ≠ sh then
            let updated := { kv.2 with stale := true }
            ({ st.1 with nodes := dictSet st.1.nodes kv.1 updated },
             st.2 ++ [updated])
          else st)
    (t, [])

end MerkleTreeDiffer

/-! ## Diff -/

/-- The `for p in sorted(old_files & new_files)` loop shared by both diff
implementations: appends `p` to `changed` when the source hash differs
and additionally to `stale` when the doc hash is unchanged.  The
unreachable lookup-miss arm skips (in Python the key is always present,
`self.nodes[p]` cannot raise there). -/
def diffLoop (old other : MerkleTree) (ps : List String) :
    List String × List String :=
  ps.foldl
    (fun (acc : List String × List String) p =>
      match old.findNode p, other.findNode p with
      | some o, some n =>
        if o.source_hash ≠ n.source_hash then
          (acc.1 ++ [p],
           if o.doc_hash = n.doc_hash then acc.2 ++ [p] else acc.2)
        else acc
      | _, _ => acc)
    ([], [])

/-- `MerkleTree.diff` from `merkle/tree.py`: compare `old` (self) against
`other` (new).  File paths are the keys whose node has a non-`None`
`source_hash`; the set comprehensions dedupe.  The `MerkleDiff` is built
from the Python *lists* (no `tuple(...)` conversion in `tree.py`). -/
def MerkleTree.diff (old other : MerkleTree) : MerkleDiff :=
  let old_files := dedupFirst
    ((old.nodes.filter (fun kv => kv.2.source_hash ≠ none)).map (·.1))
  let new_files := dedupFirst
    ((other.nodes.filter (fun kv => kv.2.source_hash ≠ none)).map (·.1))
  let added := sortStr (new_files.filter (fun p => !(old_files.contains p)))
  let removed := sortStr (old_files.filter (fun p => !(new_files.contains p)))
  let inter := sortStr (old_files.filter (fun p => new_files.contains p))
  let pair := diffLoop old other inter
  { changed := .lst pair.1, added := .lst added, removed := .lst removed,
    stale := .lst pair.2,
    root_changed := old.root_hash != other.root_hash,
    old_root_hash := old.root_hash, new_root_hash := other.root_hash }

namespace MerkleTreeDiffer

/-- `MerkleTreeDiffer.diff` from `merkle/differ.py`: compare `old`
against `new` and return a diff summary.  Identical comparison logic to
`MerkleTree.diff`, but the `MerkleDiff` fields are built with
`tuple(...)`. -/
def diff (old new : MerkleTree) : MerkleDiff :=
  let old_files := dedupFirst
    ((old.nodes.filter (fun kv => kv.2.source_hash ≠ none)).map (·.1))
  let new_files := dedupFirst
    ((new.nodes.filter (fun kv => kv.2.source_hash ≠ none)).map (·.1))
  let added := sortStr (new_files.filter (fun p => !(old_files.contains p)))
  let removed := sortStr (old_files.filter (fun p => !(new_files.contains p)))
  let inter := sortStr (old_files.filter (fun p => new_files.contains p))
  let pair := diffLoop old new inter
  { changed := .tup pair.1, added := .tup added, removed := .tup removed,
    stale := .tup pair.2,
    root_changed := old.root_hash != new.root_hash,
    old_root_hash := old.root_hash, new_root_hash := new.root_hash }

end MerkleTreeDiffer

/-! ## Serialization (`to_json` / `from_json` from `merkle/tree.py`)

The embedding works at the level of the JSON data model: `json.dumps` and
`json.loads` (Python stdlib) are exact inverses between these values and
the serialized byte string, so the repository-level content of the
round-trip is the field mapping below. -/

/-- A JSON value.  Objects keep key order, as Python dicts do. -/
inductive Json where
  | null
  | bool (b : Bool)
  | num (n : Int)
  | str (s : String)
  | arr (elems : List Json)
  | obj (fields : List (String × Json))

/-- `None`-aware string serialization. -/
def optStrJson : Option String → Json
  | none => .null
  | some s => .str s

/-- JSON object lookup (`obj[k]` / `obj.get(k)`). -/
def jGet (j : Json) (k : String) : Option Json :=
  match j with
  | .obj fs => (fs.find? (fun kv => kv.1 == k)).map (·.2)
  | _ => none

/-- A required string field (`obj[k]` raising `KeyError` when absent). -/
def jStr? (j : Option Json) : Except String String :=
  match j with
  | some (.str s) => .ok s
  | _ => .error "KeyError"

/-- `ndata.get(k)`: a missing key or JSON `null` becomes `None`. -/
def jOptStr (j : Option Json) : Option String :=
  match j with
  | some (.str s) => some s
  | _ => none

/-- `ndata.get("children", [])`: a missing key becomes the empty list;
an array's string elements are read back.  (Round-trip data only ever
contains strings here.) -/
def jStrList (j : Option Json) : List String :=
  match j with
  | some (.arr es) =>
    es.filterMap (fun e => match e with | .str s => some s | _ => none)
  | _ => []

/-- `ndata.get("stale", False)`. -/
def jBoolD (d : Bool) (j : Option Json) : Bool :=
  match j with
  | some (.bool b) => b
  | _ => d

/-- `MerkleTree.to_json` from `merkle/tree.py`: serialize the tree.  The
`version` and `algorithm` class attributes are the constants `1` and
`"sha256"`; every node is written with all seven fields; a tuple and a
list both serialize to a JSON array. -/
def MerkleTree.to_json (t : MerkleTree) : Json :=
  .obj [("version", .num 1),
        ("algorithm", .str "sha256"),
        ("root_hash", .str t.root_hash),
        ("root_path", .str t.root_path),
        ("last_scan", .str t.last_scan.isoformat),
        ("nodes", .obj (t.nodes.map (fun kv =>
          (kv.1, Json.obj
            [("path", .str kv.2.path),
             ("hash", .str kv.2.hash),
             ("children", .arr (kv.2.children.toList.map .str)),
             ("source_hash", optStrJson kv.2.source_hash),
             ("doc_hash", optStrJson kv.2.doc_hash),
             ("doc_path", optStrJson kv.2.doc_path),
             ("stale", .bool kv.2.stale)]))))]

/-- Reconstruct one node from its JSON record, exactly as
`MerkleTree.from_json` does: required `path` and `hash`, `children` as a
Python *list* default `[]`, optional hashes and doc path, `stale`
default `False`.  Construction runs `MerkleNode.__post_init__`
(`MerkleNode.mk?`). -/
def nodeFromJson (j : Json) : Except String MerkleNode := do
  let path ← jStr? (jGet j "path")
  let hash ← jStr? (jGet j "hash")
  MerkleNode.mk? path hash (.lst (jStrList (jGet j "children")))
    (jOptStr (jGet j "source_hash")) (jOptStr (jGet j "doc_hash"))
    (jOptStr (jGet j "doc_path")) (jBoolD false (jGet j "stale"))

/-- `MerkleTree.from_json` from `merkle/tree.py`: deserialize a tree.
`root_path` defaults to `""` when absent; `last_scan` is parsed with
`datetime.fromisoformat`. -/
def MerkleTree.from_json (j : Json) : Except String MerkleTree := do
  let nodesJson ←
    match jGet j "nodes" with
    | some (.obj fs) => Except.ok fs
    | _ => Except.error "KeyError"
  let nodes ← nodesJson.mapM (fun kv => do
    let n ← nodeFromJson kv.2
    return (kv.1, n))
  let root_hash ← jStr? (jGet j "root_hash")
  let last_scan ← jStr? (jGet j "last_scan")
  let root_path :=
    match jGet j "root_path" with
    | some (.str s) => s
    | _ => ""
  return { root_hash := root_hash, nodes := nodes,
           last_scan := PyDatetime.fromisoformat last_scan,
           root_path := root_path }

/-! ## Freshness report (`check_staleness` from `freshness/checker.py`) -/

/-- `StaleEntry` from `freshness/checker.py`. -/
structure StaleEntry where
  source_path : String
  doc_path : Option String := none
  current_hash : String
  recorded_hash : String
deriving DecidableEq, Repr

/-- `StalenessReport` from `freshness/checker.py`. -/
structure StalenessReport where
  stale : List StaleEntry := []
  uncovered : List String := []
  orphaned : List String := []
  total_files : Nat := 0
  total_docs : Nat := 0
deriving DecidableEq, Repr

/-- `check_staleness` from `freshness/checker.py`, after
`_load_or_build_tree` produced `tree` (loaded from the persisted JSON or
freshly built).  `disk` maps an absolute path string to the truncated
hash of the file there, `none` when `is_file()` is false — exactly how
the function consumes the disk (`is_file` plus `compute_file_hash`).
`all_tech_md` is what `_collect_tech_md_files` returned (a set, hence
deduplicated).  Mirrors the four passes: stale entries, uncovered,
orphaned, totals. -/
def check_staleness (project_path : String) (tree : MerkleTree)
    (disk : String → Option String) (all_tech_md : List String) :
    StalenessReport :=
  let file_nodes := (tree.nodes.map (·.2)).filter
    (fun n => n.source_hash ≠ none)
  let stale_entries := file_nodes.foldl
    (fun acc n =>
      match n.source_hash with
      | none => acc
      | some recorded =>
        match disk (pathJoin project_path n.path) with
        | none => acc
        | some current =>
          if current ≠ recorded then
            acc ++ [{ source_path := n.path, doc_path := n.doc_path,
                      current_hash := current, recorded_hash := recorded }]
          else acc)
    []
  let uncovered := sortStr ((file_nodes.filter
    (fun n => n.doc_path.isNone &&
      (disk (pathJoin project_path n.path)).isSome)).map (·.path))
  let referenced_docs := dedupFirst (file_nodes.filterMap (·.doc_path))
  let all_tech := dedupFirst all_tech_md
  let orphaned := sortStr (all_tech.filter
    (fun p => !(referenced_docs.contains p)))
  let total_files := (file_nodes.filter
    (fun n => (disk (pathJoin project_path n.path)).isSome)).length
  let total_docs := (referenced_docs.filter
    (fun p => all_tech.contains p)).length
  { stale := stale_entries, uncovered := uncovered, orphaned := orphaned,
    total_files := total_files, total_docs := total_docs }

/-! ## Blast radius (`blast_radius` from `chronicler/cli.py`)

The BFS core of the CLI command: after the start component is resolved
(doc frontmatter `component_id`, or the raw changed path), the command
builds a bidirectional adjacency map from the edge graph and walks it
breadth-first up to `depth` hops, collecting one sorted level per hop. -/

/-- An edge record from a `.tech.md` frontmatter `edges` list. -/
structure BREdge where
  target : String
  type : String
deriving DecidableEq, Repr

/-- `all_targets.setdefault(k, set()).add(v)`: insertion-ordered set
semantics (adding an existing element is a no-op). -/
def setAdd (m : List (String × List String)) (k v : String) :
    List (String × List String) :=
  if (m.find? (fun kv => kv.1 == k)).isSome then
    m.map (fun kv =>
      if kv.1 == k then
        (kv.1, if kv.2.contains v then kv.2 else kv.2 ++ [v])
      else kv)
  else m ++ [(k, [v])]

/-- Build the bidirectional adjacency map: every edge `comp -> target`
with a non-empty target contributes both directions. -/
def buildAllTargets (graph : List (String × List BREdge)) :
    List (String × List String) :=
  graph.foldl
    (fun m ce =>
      ce.2.foldl
        (fun m edge =>
          if edge.target ≠ "" then
            setAdd (setAdd m ce.1 edge.target) edge.target ce.1
          else m)
        m)
    []

/-- `all_targets.get(comp, set())`. -/
def adjGet (m : List (String × List String)) (k : String) : List String :=
  ((m.find? (fun kv => kv.1 == k)).map (·.2)).getD []

/-- One BFS ply: walk the frontier, visit unvisited neighbors, collect
them (in discovery order) as the next level.  Returns the grown visited
list and the next level; the next frontier has the same contents. -/
def bfsStep (adj : List (String × List String)) (visited : List String)
    (frontier : List String) : List String × List String :=
  frontier.foldl
    (fun st comp =>
      (adjGet adj comp).foldl
        (fun st2 nb =>
          if st2.1.contains nb then st2
          else (st2.1 ++ [nb], st2.2 ++ [nb]))
        st)
    (visited, [])

/-- The `for _ in range(depth)` loop: one sorted level per hop. -/
def bfsLoop (adj : List (String × List String)) :
    Nat → List String → List String → List (List String)
  | 0, _, _ => []
  | d + 1, visited, frontier =>
    let st := bfsStep adj visited frontier
    sortStr st.2 :: bfsLoop adj d st.1 st.2

/-- The BFS core of `blast_radius`: levels of components affected by a
change to `start`, one (sorted) list per hop, up to `depth` hops. -/
def blast_radius_levels (graph : List (String × List BREdge))
    (start : String) (depth : Nat) : List (List String) :=
  bfsLoop (buildAllTargets graph) depth [start] [start]

/-! ## Statement vocabulary

Definitions used only to state properties of the embedded operations. -/

/-- `p` is a file path of tree `t`: the node stored under key `p` exists
and has a non-absent `source_hash`. -/
def isFileKey (t : MerkleTree) (p : String) : Prop :=
  ∃ n, t.findNode p = some n ∧ n.source_hash ≠ none

/-- The diff loop's changed test, as a predicate on paths. -/
def changedB (old other : MerkleTree) (p : String) : Bool :=
  match old.findNode p, other.findNode p with
  | some o, some n => decide (o.source_hash ≠ n.source_hash)
  | _, _ => false

/-- The diff loop's doc-unchanged test, as a predicate on paths. -/
def docEqB (old other : MerkleTree) (p : String) : Bool :=
  match old.findNode p, other.findNode p with
  | some o, some n => decide (o.doc_hash = n.doc_hash)
  | _, _ => false

/-- `c` is reachable from `start` in at most `n` hops of the adjacency
map. -/
def reachIn (adj : List (String × List String)) (start : String) :
    Nat → String → Prop
  | 0, c => c = start
  | n + 1, c =>
    reachIn adj start n c ∨ ∃ b, reachIn adj start n b ∧ c ∈ adjGet adj b

/-- The minimum hop distance of `c` from `start` is exactly `k`. -/
def distIs (adj : List (String × List String)) (start : String) (k : Nat)
    (c : String) : Prop :=
  reachIn adj start k c ∧ ∀ j, j < k → ¬ reachIn adj start j c

/-- The supplied directed edge graph has an edge `a -> b`. -/
def hasEdge (graph : List (String × List BREdge)) (a b : String) : Prop :=
  ∃ ce ∈ graph, ce.1 = a ∧ ∃ e ∈ ce.2, e.target = b

/-! ## Concrete fixtures used by witnesses and counterexamples -/

/-- A one-file tree whose file node carries the dataclass defaults
(`children = ()`, a Python tuple). -/
def roundTripTree : MerkleTree :=
  { root_hash := "aabbccddeeff",
    nodes := [("app.py",
      { path := "app.py", hash := "aabbccddeeff",
        source_hash := some "aabbccddeeff" })],
    last_scan := ⟨"2024-01-01T00:00:00+00:00"⟩,
    root_path := "/proj" }

/-- What deserialization actually rebuilds from `roundTripTree`'s JSON:
the same data except that `children` is now a Python *list*. -/
def roundTripRestored : MerkleTree :=
  { root_hash := "aabbccddeeff",
    nodes := [("app.py",
      { path := "app.py", hash := "aabbccddeeff", children := .lst [],
        source_hash := some "aabbccddeeff" })],
    last_scan := ⟨"2024-01-01T00:00:00+00:00"⟩,
    root_path := "/proj" }

/-- A one-file tree for drift checks, rooted at `/proj`. -/
def driftTree : MerkleTree :=
  { root_hash := "aabbccddeeff",
    nodes := [("app.py",
      { path := "app.py", hash := "aabbccddeeff",
        source_hash := some "aabbccddeeff" })],
    last_scan := ⟨"2024-01-01T00:00:00+00:00"⟩,
    root_path := "/proj" }

/-- An on-disk state where `/proj/app.py` exists with drifted content
(its current truncated hash differs from the recorded one). -/
def driftDisk : String → Option String := fun p =>
  if p = "/proj/app.py" then some "001122334455" else none

/-- The node of `driftTree` after `dataclasses.replace(node, stale=True)`. -/
def driftUpdatedNode : MerkleNode :=
  { path := "app.py", hash := "aabbccddeeff",
    source_hash := some "aabbccddeeff", stale := true }

/-- A minimal tree for comparing the two diff implementations. -/
def plainTree : MerkleTree :=
  { root_hash := "aabbccddeeff", nodes := [],
    last_scan := ⟨"2024-01-01T00:00:00+00:00"⟩ }

/-- Old snapshot for the diff characterization witness. -/
def diffOldTree : MerkleTree :=
  { root_hash := "aaaaaaaaaaaa",
    nodes := [("a.py",
      { path := "a.py", hash := "111111111111",
        source_hash := some "111111111111",
        doc_hash := some "dddddddddddd" }),
      ("b.py",
      { path := "b.py", hash := "222222222222",
        source_hash := some "222222222222" })],
    last_scan := ⟨"2024-01-01T00:00:00+00:00"⟩ }

/-- New snapshot for the diff characterization witness: `a.py` changed
with its doc hash unchanged, `b.py` removed, `c.py` added. -/
def diffNewTree : MerkleTree :=
  { root_hash := "bbbbbbbbbbbb",
    nodes := [("a.py",
      { path := "a.py", hash := "333333333333",
        source_hash := some "333333333333",
        doc_hash := some "dddddddddddd" }),
      ("c.py",
      { path := "c.py", hash := "444444444444",
        source_hash := some "444444444444" })],
    last_scan := ⟨"2024-01-02T00:00:00+00:00"⟩ }

/-- The end-to-end scenario project: `src/main.py` and `src/util.py`,
no doc directory. -/
def scenarioFS : FS :=
  [(["proj", "src", "main.py"], strBytes "print(hi)"),
   (["proj", "src", "util.py"], strBytes "def helper(): pass")]

/-- The scenario's on-disk hash oracle, agreeing with `scenarioFS`. -/
def scenarioDisk : String → Option String := fun p =>
  if p = "/proj/src/main.py" then some (compute_hash (strBytes "print(hi)"))
  else if p = "/proj/src/util.py" then
    some (compute_hash (strBytes "def helper(): pass"))
  else none

/-- The blast-radius scenario graph: `my-app -> auth-service` (calls) and
`auth-service -> db-layer` (depends_on). -/
def scenarioGraph : List (String × List BREdge) :=
  [("my-app", [{ target := "auth-service", type := "calls" }]),
   ("auth-service", [{ target := "db-layer", type := "depends_on" }])]

/-! # Helper lemmas -/

theorem charsLe_total : ∀ xs ys : List Char,
    charsLe xs ys = true ∨ charsLe ys xs = true := by
  intro xs
  induction xs with
  | nil => exact fun ys => .inl rfl
  | cons c cs ih =>
    intro ys
    cases ys with
    | nil => exact .inr rfl
    | cons d ds =>
      by_cases hcd : c = d
      · subst hcd
        simpa only [charsLe, if_pos rfl] using ih ds
      · rcases lt_or_gt_of_ne hcd with hlt | hgt
        · left
          simp [charsLe, hcd, hlt]
        · right
          simp [charsLe, Ne.symm hcd, hgt]

theorem charsLe_trans : ∀ xs ys zs : List Char,
    charsLe xs ys = true → charsLe ys zs = true → charsLe xs zs = true := by
  intro xs
  induction xs with
  | nil => exact fun ys zs _ _ => rfl
  | cons c cs ih =>
    intro ys zs h1 h2
    cases ys with
    | nil => exact absurd h1 (by simp [charsLe])
    | cons d ds =>
      cases zs with
      | nil => exact absurd h2 (by simp [charsLe])
      | cons e es =>
        by_cases hcd : c = d <;> by_cases hde : d = e
        · subst hcd; subst hde
          simp only [charsLe, if_pos rfl] at h1 h2 ⊢
          exact ih ds es h1 h2
        · subst hcd
          simp only [charsLe, if_pos rfl, if_neg hde,
            decide_eq_true_eq] at h1 h2 ⊢
          simp [hde, h2]
        · subst hde
          simp only [charsLe, if_neg hcd, decide_eq_true_eq] at h1 ⊢
          simp [hcd, h1]
        · simp only [charsLe, if_neg hcd, if_neg hde,
            decide_eq_true_eq] at h1 h2
          have hce : c < e := lt_trans h1 h2
          simp [charsLe, ne_of_lt hce, hce]

theorem charsLe_antisymm : ∀ xs ys : List Char,
    charsLe xs ys = true → charsLe ys xs = true → xs = ys := by
  intro xs
  induction xs with
  | nil =>
    intro ys _ h2
    cases ys with
    | nil => rfl
    | cons d ds => exact absurd h2 (by simp [charsLe])
  | cons c cs ih =>
    intro ys h1 h2
    cases ys with
    | nil => exact absurd h1 (by simp [charsLe])
    | cons d ds =>
      by_cases hcd : c = d
      · subst hcd
        simp only [charsLe, if_pos rfl] at h1 h2
        rw [ih ds h1 h2]
      · simp only [charsLe, if_neg hcd, if_neg (Ne.symm hcd),
          decide_eq_true_eq] at h1 h2
        exact absurd h2 (lt_asymm h1)

theorem strLe_total (a b : String) : strLe a b = true ∨ strLe b a = true :=
  charsLe_total a.data b.data

theorem strLe_trans (a b c : String) (h1 : strLe a b = true)
    (h2 : strLe b c = true) : strLe a c = true :=
  charsLe_trans a.data b.data c.data h1 h2

theorem strLe_antisymm (a b : String) (h1 : strLe a b = true)
    (h2 : strLe b a = true) : a = b := by
  cases a with
  | mk da =>
    cases b with
    | mk db => exact congrArg String.mk (charsLe_antisymm da db h1 h2)

theorem mem_sortStr {a : String} {l : List String} : a ∈ sortStr l ↔ a ∈ l :=
  (List.perm_insertionSort _ l).mem_iff

theorem sorted_sortStr (l : List String) :
    (sortStr l).Sorted (fun a b => strLe a b = true) :=
  @List.sorted_insertionSort String (fun a b => strLe a b = true) _
    ⟨strLe_total⟩ ⟨strLe_trans⟩ l

theorem sortStr_eq_of_perm {l l' : List String} (h : l.Perm l') :
    sortStr l = sortStr l' :=
  @List.eq_of_perm_of_sorted String (fun a b => strLe a b = true)
    ⟨strLe_antisymm⟩ _ _
    ((List.perm_insertionSort _ l).trans
      (h.trans (List.perm_insertionSort _ l').symm))
    (sorted_sortStr l) (sorted_sortStr l')

/-! # Claim C1 -/

/-- C1: `compute_merkle_hash` (the fold of child digests) is invariant
under permutation of the child hash list: it sorts the digests
lexicographically, concatenates them and hashes the result, so the
parent digest does not depend on discovery/insertion order. -/
theorem compute_merkle_hash_order_independent (l l' : List String)
    (h : l.Perm l') : compute_merkle_hash l = compute_merkle_hash l' := by
  unfold compute_merkle_hash
  rw [sortStr_eq_of_perm h]

/-- Witness for C1 at the spec's own example. -/
theorem compute_merkle_hash_order_independent_witness :
    compute_merkle_hash ["a", "b", "c"] = compute_merkle_hash ["c", "a", "b"] :=
  compute_merkle_hash_order_independent _ _ (by decide)

theorem mem_dedupFirstAux :
    ∀ (n : Nat) (l : List String) (a : String), l.length ≤ n →
      (a ∈ dedupFirstAux n l ↔ a ∈ l) := by
  intro n
  induction n with
  | zero =>
    intro l a hl
    have hnil : l = [] := List.length_eq_zero.mp (Nat.le_zero.mp hl)
    subst hnil
    simp [dedupFirstAux]
  | succ n ih =>
    intro l a hl
    cases l with
    | nil => simp [dedupFirstAux]
    | cons x xs =>
      have hlen : xs.length ≤ n := Nat.succ_le_succ_iff.mp hl
      have hflen : (xs.filter (fun y => y != x)).length ≤ n :=
        le_trans (List.length_filter_le _ _) hlen
      simp only [dedupFirstAux, List.mem_cons, ih _ a hflen,
        List.mem_filter, bne_iff_ne, ne_eq]
      constructor
      · rintro (rfl | ⟨hmem, _⟩)
        · exact .inl rfl
        · exact .inr hmem
      · rintro (rfl | hmem)
        · exact .inl rfl
        · by_cases hax : a = x
          · exact .inl hax
          · exact .inr ⟨hmem, by simpa using hax⟩

theorem mem_dedupFirst {a : String} {l : List String} :
    a ∈ dedupFirst l ↔ a ∈ l :=
  mem_dedupFirstAux l.length l a le_rfl

theorem assoc_find?_eq_iff_mem :
    ∀ (l : List (String × MerkleNode)), (l.map (·.1)).Nodup →
      ∀ (p : String) (n : MerkleNode),
        ((l.find? (fun kv => kv.1 == p)).map (·.2) = some n ↔ (p, n) ∈ l) := by
  intro l
  induction l with
  | nil => simp
  | cons kv rest ih =>
    intro hnd p n
    obtain ⟨k, v⟩ := kv
    simp only [List.map_cons, List.nodup_cons, List.mem_map] at hnd
    by_cases hkp : k = p
    · subst hkp
      rw [List.find?_cons_of_pos _ (by simp)]
      simp only [Option.map_some', Option.some.injEq, List.mem_cons,
        Prod.mk.injEq, true_and]
      constructor
      · intro hv
        exact .inl hv.symm
      · rintro (rfl | hmem)
        · rfl
        · exact absurd ⟨(k, n), hmem, rfl⟩ hnd.1
    · rw [List.find?_cons_of_neg _ (by simpa using hkp)]
      rw [ih hnd.2 p n]
      simp only [List.mem_cons, Prod.mk.injEq]
      constructor
      · exact fun hmem => .inr hmem
      · rintro (⟨rfl, -⟩ | hmem)
        · exact absurd rfl hkp
        · exact hmem

/-- Membership in the deduplicated file-key list of a tree (the set
comprehension of the diff implementations), under unique dict keys. -/
theorem mem_fileKeys {t : MerkleTree} (h : keysNodup t) {p : String} :
    (p ∈ dedupFirst
      ((t.nodes.filter (fun kv => kv.2.source_hash ≠ none)).map (·.1))) ↔
      isFileKey t p := by
  rw [mem_dedupFirst]
  simp only [List.mem_map, List.mem_filter, decide_eq_true_eq]
  constructor
  · rintro ⟨⟨q, m⟩, ⟨hmem, hsh⟩, rfl⟩
    exact ⟨m, (assoc_find?_eq_iff_mem t.nodes h q m).mpr hmem, hsh⟩
  · rintro ⟨n, hfind, hsh⟩
    exact ⟨(p, n), ⟨(assoc_find?_eq_iff_mem t.nodes h p n).mp hfind, hsh⟩, rfl⟩

theorem changedB_iff {old other : MerkleTree} {q : String} :
    changedB old other q = true ↔
      ∃ a b, old.findNode q = some a ∧ other.findNode q = some b ∧
        a.source_hash ≠ b.source_hash := by
  unfold changedB
  rcases hO : old.findNode q with _ | a <;>
    rcases hN : other.findNode q with _ | b <;> simp [hO, hN]

theorem docEqB_iff {old other : MerkleTree} {q : String} :
    docEqB old other q = true ↔
      ∃ a b, old.findNode q = some a ∧ other.findNode q = some b ∧
        a.doc_hash = b.doc_hash := by
  unfold docEqB
  rcases hO : old.findNode q with _ | a <;>
    rcases hN : other.findNode q with _ | b <;> simp [hO, hN]

theorem diffLoop_foldl_eq (old other : MerkleTree) :
    ∀ (ps : List String) (a b : List String),
      ps.foldl
        (fun (acc : List String × List String) p =>
          match old.findNode p, other.findNode p with
          | some o, some n =>
            if o.source_hash ≠ n.source_hash then
              (acc.1 ++ [p],
               if o.doc_hash = n.doc_hash then acc.2 ++ [p] else acc.2)
            else acc
          | _, _ => acc)
        (a, b) =
      (a ++ ps.filter (changedB old other),
       b ++ ps.filter (fun p => changedB old other p && docEqB old other p)) := by
  intro ps
  induction ps with
  | nil => simp
  | cons p rest ih =>
    intro a b
    simp only [List.foldl_cons, List.filter_cons]
    rcases hO : old.findNode p with _ | o <;>
      rcases hN : other.findNode p with _ | n
    case none.none =>
      have hc : changedB old other p = false := by simp [changedB, hO, hN]
      simp only [hO, hN, ih, hc, Bool.false_and, Bool.false_eq_true,
        if_false]
    case none.some =>
      have hc : changedB old other p = false := by simp [changedB, hO, hN]
      simp only [hO, hN, ih, hc, Bool.false_and, Bool.false_eq_true,
        if_false]
    case some.none =>
      have hc : changedB old other p = false := by simp [changedB, hO, hN]
      simp only [hO, hN, ih, hc, Bool.false_and, Bool.false_eq_true,
        if_false]
    case some.some =>
      by_cases hsh : o.source_hash ≠ n.source_hash
      · have hc : changedB old other p = true := by
          simp [changedB, hO, hN, hsh]
        by_cases hdoc : o.doc_hash = n.doc_hash
        · have hd : docEqB old other p = true := by
            simp [docEqB, hO, hN, hdoc]
          simp only [hO, hN, if_pos hsh, if_pos hdoc, ih, hc, hd,
            Bool.and_self, if_true, List.append_assoc, List.singleton_append]
        · have hd : docEqB old other p = false := by
            simp [docEqB, hO, hN, hdoc]
          simp only [hO, hN, if_pos hsh, if_neg hdoc, ih, hc, hd,
            Bool.true_and, Bool.false_eq_true, if_false, if_true,
            List.append_assoc, List.singleton_append]
      · have hc : changedB old other p = false := by
          simp [changedB, hO, hN, hsh]
        simp only [hO, hN, if_neg hsh, ih, hc, Bool.false_and,
          Bool.false_eq_true, if_false]

theorem diffLoop_eq (old other : MerkleTree) (ps : List String) :
    diffLoop old other ps =
      (ps.filter (changedB old other),
       ps.filter (fun p => changedB old other p && docEqB old other p)) := by
  unfold diffLoop
  rw [diffLoop_foldl_eq old other ps [] []]
  simp

/-! # Claim C9 -/

/-- C9: constructing a `MerkleNode` validates the hash at construction
time: a constructed node's hash is the given string and matches
`[a-f0-9]{12}` in full (exactly 12 lower-case hex characters), and for
any other hash string construction raises (returns the `ValueError`), so
no node with an invalid hash is ever produced by the constructor. -/
theorem merkle_node_hash_validated (p h : String) (ch : PySeq)
    (sh dh dp : Option String) (st : Bool) :
    (∀ n, MerkleNode.mk? p h ch sh dh dp st = .ok n →
      n.hash = h ∧ isHex12 n.hash = true) ∧
    (isHex12 h = false →
      ∃ msg, MerkleNode.mk? p h ch sh dh dp st = .error msg) := by
  constructor
  · intro n hn
    unfold MerkleNode.mk? at hn
    by_cases hv : isHex12 h = true
    · rw [if_pos hv] at hn
      cases hn
      exact ⟨rfl, hv⟩
    · rw [if_neg hv] at hn
      cases hn
  · intro hfalse
    refine ⟨"hash must be 12-char hex, got " ++ h, ?_⟩
    unfold MerkleNode.mk?
    rw [if_neg (by simp [hfalse])]

/-- Witness for C9: a 12-character non-hex string is rejected. -/
theorem merkle_node_hash_validated_witness :
    ∃ msg, MerkleNode.mk? "x" "nothexnothex" (.tup []) none none none
      false = .error msg :=
  (merkle_node_hash_validated "x" "nothexnothex" (.tup []) none none none
    false).2 (by decide)

/-! # Claim C6 -/

/-- C6: a documentation-pairing candidate is only ever returned when its
lexically resolved location is still inside the resolved root — for every
on-disk state (`is_file` oracle), every source path (including ones with
traversal segments), both the sibling-convention and the root-convention
candidates are rejected when they resolve outside the root, silently (the
function merely returns no match).  Hence any returned pairing is inside
the root (and is an existing file). -/
theorem find_doc_traversal_guard (is_file : List String → Bool)
    (source_rel doc_dir : String) (root : List String) (p : List String)
    (hp : find_doc_for_source is_file source_rel doc_dir root = some p) :
    (resolveAbs root).isPrefixOf (resolveAbs p) = true ∧ is_file p = true := by
  unfold find_doc_for_source at hp
  dsimp only at hp
  split at hp
  · rename_i hcond
    simp only [Bool.and_eq_true] at hcond
    cases hp
    exact ⟨hcond.1, hcond.2⟩
  · split at hp
    · rename_i hcond
      simp only [Bool.and_eq_true] at hcond
      cases hp
      exact ⟨hcond.1, hcond.2⟩
    · cases hp

/-- Witness for C6: a successful sibling-convention pairing is inside
the root. -/
theorem find_doc_traversal_guard_witness :
    (resolveAbs ["root"]).isPrefixOf
        (resolveAbs ["root", "a", ".chronicler", "main.tech.md"]) = true ∧
    (fun _ : List String => true)
        ["root", "a", ".chronicler", "main.tech.md"] = true :=
  find_doc_traversal_guard (fun _ => true) "a/main.py" ".chronicler"
    ["root"] ["root", "a", ".chronicler", "main.tech.md"] (by decide)

/-! # Claim C4 -/

/-- The set comprehension's `contains` test agrees with `isFileKey`. -/
theorem contains_fileKeys_iff {t : MerkleTree} (h : keysNodup t)
    {q : String} :
    (dedupFirst
      ((t.nodes.filter (fun kv => kv.2.source_hash ≠ none)).map
        (·.1))).contains q = true ↔ isFileKey t q :=
  List.elem_iff.trans (mem_fileKeys h)

theorem not_contains_fileKeys_iff {t : MerkleTree} (h : keysNodup t)
    {q : String} :
    (!(dedupFirst
      ((t.nodes.filter (fun kv => kv.2.source_hash ≠ none)).map
        (·.1))).contains q) = true ↔ ¬ isFileKey t q := by
  rw [Bool.not_eq_true']
  constructor
  · intro hf hk
    rw [(contains_fileKeys_iff h).mpr hk] at hf
    cases hf
  · intro hnk
    cases hc : (dedupFirst
      ((t.nodes.filter (fun kv => kv.2.source_hash ≠ none)).map
        (·.1))).contains q
    · rfl
    · exact absurd ((contains_fileKeys_iff h).mp hc) hnk

/-- C4: the diff of two trees is characterized as follows — `added` is
exactly the file paths of the new tree that are not file paths of the
old, `removed` exactly those of the old not in the new, `changed` exactly
the paths present as file nodes in both trees whose `source_hash`
differs, `stale` exactly the changed paths whose `doc_hash` is equal
between old and new (hence `stale` is a subset of `changed`, and a path
whose doc hash also changed appears in `changed` but not in `stale`), and
`root_changed` holds iff the two root hashes differ. -/
theorem diff_characterization (old other : MerkleTree)
    (h1 : keysNodup old) (h2 : keysNodup other) (q : String) :
    (q ∈ (MerkleTree.diff old other).added.toList ↔
      isFileKey other q ∧ ¬ isFileKey old q) ∧
    (q ∈ (MerkleTree.diff old other).removed.toList ↔
      isFileKey old q ∧ ¬ isFileKey other q) ∧
    (q ∈ (MerkleTree.diff old other).changed.toList ↔
      (∃ a b, old.findNode q = some a ∧ other.findNode q = some b ∧
        a.source_hash ≠ none ∧ b.source_hash ≠ none ∧
        a.source_hash ≠ b.source_hash)) ∧
    (q ∈ (MerkleTree.diff old other).stale.toList ↔
      (q ∈ (MerkleTree.diff old other).changed.toList ∧
        ∃ a b, old.findNode q = some a ∧ other.findNode q = some b ∧
          a.doc_hash = b.doc_hash)) ∧
    ((MerkleTree.diff old other).root_changed = true ↔
      old.root_hash ≠ other.root_hash) := by
  simp only [MerkleTree.diff, diffLoop_eq, PySeq.toList]
  refine ⟨?_, ?_, ?_, ?_, ?_⟩
  · rw [mem_sortStr, List.mem_filter, mem_fileKeys h2,
      not_contains_fileKeys_iff h1]
  · rw [mem_sortStr, List.mem_filter, mem_fileKeys h1,
      not_contains_fileKeys_iff h2]
  · rw [List.mem_filter, mem_sortStr, List.mem_filter, mem_fileKeys h1,
      contains_fileKeys_iff h2, changedB_iff]
    constructor
    · rintro ⟨⟨⟨a', hfa', hna'⟩, b', hfb', hnb'⟩, a, b, hfa, hfb, hab⟩
      rw [hfa] at hfa'
      rw [hfb] at hfb'
      obtain rfl : a = a' := Option.some.inj hfa'
      obtain rfl : b = b' := Option.some.inj hfb'
      exact ⟨a, b, hfa, hfb, hna', hnb', hab⟩
    · rintro ⟨a, b, hfa, hfb, hna, hnb, hab⟩
      exact ⟨⟨⟨a, hfa, hna⟩, b, hfb, hnb⟩, a, b, hfa, hfb, hab⟩
  · rw [List.mem_filter, List.mem_filter]
    constructor
    · rintro ⟨hin, hcd⟩
      simp only [Bool.and_eq_true] at hcd
      exact ⟨⟨hin, hcd.1⟩, docEqB_iff.mp hcd.2⟩
    · rintro ⟨⟨hin, hc⟩, hd⟩
      refine ⟨hin, ?_⟩
      simp only [Bool.and_eq_true]
      exact ⟨hc, docEqB_iff.mpr hd⟩
  · exact bne_iff_ne

/-- Witness for C4 at two concrete snapshots: the root-changed component
of the characterization. -/
theorem diff_characterization_witness :
    (MerkleTree.diff diffOldTree diffNewTree).root_changed = true ↔
      diffOldTree.root_hash ≠ diffNewTree.root_hash :=
  (diff_characterization diffOldTree diffNewTree
    (by unfold keysNodup; decide) (by unfold keysNodup; decide)
    "a.py").2.2.2.2

/-! # Claim C5 -/

/-- C5 counterexample: building over an empty root directory does NOT
produce a node at path `""` — the node map is empty, refuting the claim
that the tree contains a single node at path `""`. -/
theorem build_empty_dir_has_no_root_node :
    (MerkleTree.build [] ["proj"] ".chronicler" []
        ⟨"2024-01-01T00:00:00+00:00"⟩).findNode "" = none ∧
    (MerkleTree.build [] ["proj"] ".chronicler" []
        ⟨"2024-01-01T00:00:00+00:00"⟩).nodes = [] :=
  ⟨rfl, rfl⟩

/-- C5 amended: building a tree over an empty root directory produces a
tree with an empty node map (hence zero file nodes and no root node),
whose `root_hash` falls back to the digest of the empty byte string
(never null/absent). -/
theorem build_empty_dir_amended (root : List String) (doc_dir : String)
    (ignore : List String) (now : PyDatetime) :
    (MerkleTree.build [] root doc_dir ignore now).nodes = [] ∧
    (MerkleTree.build [] root doc_dir ignore now).root_hash =
      compute_hash [] :=
  ⟨rfl, rfl⟩

/-! # Claim C10 -/

/-- C10 counterexample: the static `MerkleTreeDiffer.diff` does not
return a `MerkleDiff` equal to the method `MerkleTree.diff`: the former
wraps its sequences as Python tuples, the latter as Python lists, and
`() == []` is `False`, so even on identical empty trees the two results
are unequal. -/
theorem differ_diff_ne_tree_diff :
    MerkleTreeDiffer.diff plainTree plainTree ≠
      MerkleTree.diff plainTree plainTree := by
  decide

/-- C10 amended: the two diff implementations agree on the contents of
every field — element-wise equal `changed`, `added`, `removed` and
`stale` sequences and equal scalar fields — differing only in the
tuple-versus-list wrapping of the sequences. -/
theorem differ_diff_componentwise_eq (old new : MerkleTree) :
    (MerkleTreeDiffer.diff old new).changed.toList =
      (MerkleTree.diff old new).changed.toList ∧
    (MerkleTreeDiffer.diff old new).added.toList =
      (MerkleTree.diff old new).added.toList ∧
    (MerkleTreeDiffer.diff old new).removed.toList =
      (MerkleTree.diff old new).removed.toList ∧
    (MerkleTreeDiffer.diff old new).stale.toList =
      (MerkleTree.diff old new).stale.toList ∧
    (MerkleTreeDiffer.diff old new).root_changed =
      (MerkleTree.diff old new).root_changed ∧
    (MerkleTreeDiffer.diff old new).old_root_hash =
      (MerkleTree.diff old new).old_root_hash ∧
    (MerkleTreeDiffer.diff old new).new_root_hash =
      (MerkleTree.diff old new).new_root_hash :=
  ⟨rfl, rfl, rfl, rfl, rfl, rfl, rfl⟩

/-! # Claim C3 -/

/-- C3: on a tree with one drifted file node, `MerkleTree.check_drift`
(from `tree.py`) raises `FrozenInstanceError` when it executes
`node.stale = True` on the frozen `MerkleNode` dataclass — instead of
marking the node stale and returning it — while the static
`MerkleTreeDiffer.check_drift` (from `differ.py`) performs the documented
behavior: it replaces the node in the map by a `stale = True` copy and
returns exactly that node. -/
theorem check_drift_raises_frozen_instance_error :
    MerkleTree.check_drift driftTree driftDisk = .error frozenErrMsg ∧
    MerkleTreeDiffer.check_drift driftTree driftDisk =
      ({ driftTree with nodes := [("app.py", driftUpdatedNode)] },
       [driftUpdatedNode]) :=
  ⟨rfl, rfl⟩

/-! # Claim C8 -/

/-- C8: `check_staleness` classifies `uncovered` as exactly the file
nodes whose `doc_path` is absent and whose backing file still exists on
disk, and `orphaned` as exactly the documentation artifacts found by
walking the doc directory whose paths are not referenced as `doc_path`
by any file node; and in a project with `src/main.py` and `src/util.py`
and no doc directory, both files are reported `uncovered` and zero
entries are `stale`. -/
theorem check_staleness_characterization :
    (∀ (root : String) (tree : MerkleTree) (disk : String → Option String)
        (tech : List String) (q : String),
      (q ∈ (check_staleness root tree disk tech).uncovered ↔
        ∃ kv ∈ tree.nodes, kv.2.path = q ∧ kv.2.source_hash ≠ none ∧
          kv.2.doc_path = none ∧ (disk (pathJoin root q)).isSome = true) ∧
      (q ∈ (check_staleness root tree disk tech).orphaned ↔
        (q ∈ tech ∧
          ¬ ∃ kv ∈ tree.nodes, kv.2.source_hash ≠ none ∧
            kv.2.doc_path = some q))) ∧
    (check_staleness "/proj"
        (MerkleTree.build scenarioFS ["proj"] ".chronicler" []
          ⟨"2024-01-01T00:00:00+00:00"⟩) scenarioDisk []).uncovered =
      ["src/main.py", "src/util.py"] ∧
    (check_staleness "/proj"
        (MerkleTree.build scenarioFS ["proj"] ".chronicler" []
          ⟨"2024-01-01T00:00:00+00:00"⟩) scenarioDisk []).stale = [] := by
  refine ⟨?_, by decide, by decide⟩
  intro root tree disk tech q
  constructor
  · simp only [check_staleness]
    rw [mem_sortStr]
    simp only [List.mem_map, List.mem_filter, Bool.and_eq_true,
      Option.isNone_iff_eq_none, decide_eq_true_eq]
    constructor
    · rintro ⟨n, ⟨⟨⟨kv, hkv, rfl⟩, hsh⟩, hdoc, hdisk⟩, rfl⟩
      exact ⟨kv, hkv, rfl, hsh, hdoc, hdisk⟩
    · rintro ⟨kv, hkv, rfl, hsh, hdoc, hdisk⟩
      exact ⟨kv.2, ⟨⟨⟨kv, hkv, rfl⟩, hsh⟩, hdoc, hdisk⟩, rfl⟩
  · simp only [check_staleness]
    rw [mem_sortStr]
    rw [List.mem_filter]
    rw [mem_dedupFirst]
    simp only [Bool.not_eq_true', ← Bool.not_eq_true, List.elem_iff,
      mem_dedupFirst, List.mem_filterMap, List.mem_filter,
      List.mem_map, decide_eq_true_eq]
    constructor
    · rintro ⟨htech, hnref⟩
      refine ⟨htech, fun hr => hnref ?_⟩
      obtain ⟨kv, hkv, hsh, hdoc⟩ := hr
      exact ⟨kv.2, ⟨⟨kv, hkv, rfl⟩, hsh⟩, hdoc⟩
    · rintro ⟨htech, hnref⟩
      refine ⟨htech, fun hr => hnref ?_⟩
      obtain ⟨n, ⟨⟨kv, hkv, rfl⟩, hsh⟩, hdoc⟩ := hr
      exact ⟨kv, hkv, hsh, hdoc⟩

/-- Witness for C8 at a concrete project state: the orphaned
characterization for a doc with no referencing node. -/
theorem check_staleness_characterization_witness :
    "x.md" ∈ (check_staleness "/p" plainTree (fun _ => none)
        ["x.md"]).orphaned ↔
      ("x.md" ∈ ["x.md"] ∧
        ¬ ∃ kv ∈ plainTree.nodes, kv.2.source_hash ≠ none ∧
          kv.2.doc_path = some "x.md") :=
  (check_staleness_characterization.1 "/p" plainTree (fun _ => none)
    ["x.md"] "x.md").2

/-! # Claim C7 -/

theorem find?_key_map_upd (m : List (String × List String))
    (upd : String × List String → String × List String)
    (hk : ∀ kv, (upd kv).1 = kv.1) (a : String) :
    (m.map upd).find? (fun kv => kv.1 == a) =
      (m.find? (fun kv => kv.1 == a)).map upd := by
  induction m with
  | nil => rfl
  | cons e rest ih =>
    by_cases hea : e.1 = a
    · rw [List.map_cons, List.find?_cons_of_pos _ (by simp [hk, hea]),
        List.find?_cons_of_pos _ (by simp [hea]), Option.map_some']
    · rw [List.map_cons, List.find?_cons_of_neg _ (by simp [hk, hea]),
        List.find?_cons_of_neg _ (by simp [hea]), ih]

theorem adjGet_setAdd (m : List (String × List String)) (k v a : String) :
    adjGet (setAdd m k v) a =
      if a = k then
        (if v ∈ adjGet m k then adjGet m k else adjGet m k ++ [v])
      else adjGet m a := by
  unfold setAdd
  by_cases hf : (m.find? (fun kv => kv.1 == k)).isSome
  · rw [if_pos hf]
    unfold adjGet
    rw [find?_key_map_upd _ _ (fun kv => by by_cases h : kv.1 = k <;>
      simp [h])]
    obtain ⟨kv0, hkv0⟩ := Option.isSome_iff_exists.mp hf
    by_cases hak : a = k
    · subst hak
      rw [hkv0]
      have hkey : kv0.1 = a := by
        have := List.find?_some hkv0
        simpa using this
      simp only [Option.map_some', hkey, if_pos rfl, beq_self_eq_true,
        if_true, if_pos rfl]
      by_cases hv : v ∈ ((some kv0).map (fun x => x.2)).getD []
      · simp only [Option.map_some', Option.getD_some] at hv
        simp [hv]
      · simp only [Option.map_some', Option.getD_some] at hv
        simp [hv]
    · rw [if_neg hak]
      rcases hfa : m.find? (fun kv => kv.1 == a) with _ | kva
      · rw [hfa]
        rfl
      · have hkey : kva.1 = a := by
          have := List.find?_some hfa
          simpa using this
        have hne : kva.1 ≠ k := by rw [hkey]; exact hak
        rw [hfa]
        simp [Function.comp, hne]
  · rw [if_neg hf]
    unfold adjGet
    have hnone : m.find? (fun kv => kv.1 == k) = none :=
      Option.not_isSome_iff_eq_none.mp hf
    by_cases hak : a = k
    · subst hak
      rw [List.find?_append, hnone]
      simp [hnone, List.find?, Option.or]
    · rw [List.find?_append]
      have hsing : List.find? (fun kv => kv.1 == a) [(k, [v])] = none := by
        rw [List.find?_cons_of_neg _
          (by simpa using fun h : k = a => hak (Eq.symm h))]
        rfl
      rcases hfa : m.find? (fun kv => kv.1 == a) with _ | kva
      · simp [hfa, hsing, Option.or, hak]
      · simp [hfa, hsing, Option.or, hak]

theorem mem_adjGet_setAdd {m : List (String × List String)}
    {k v a b : String} :
    b ∈ adjGet (setAdd m k v) a ↔
      ((a = k ∧ b = v) ∨ b ∈ adjGet m a) := by
  rw [adjGet_setAdd]
  by_cases hak : a = k
  · subst hak
    rw [if_pos rfl]
    by_cases hv : v ∈ adjGet m a
    · rw [if_pos hv]
      constructor
      · exact fun h => .inr h
      · rintro (⟨-, rfl⟩ | h)
        · exact hv
        · exact h
    · rw [if_neg hv]
      simp only [List.mem_append, List.mem_singleton]
      constructor
      · rintro (h | rfl)
        · exact .inr h
        · exact .inl (by simp)
      · rintro (⟨-, rfl⟩ | h)
        · exact .inr rfl
        · exact .inl h
  · rw [if_neg hak]
    constructor
    · exact fun h => .inr h
    · rintro (⟨rfl, -⟩ | h)
      · exact absurd rfl hak
      · exact h

theorem mem_adjGet_edgeFold (adj0 : List (String × List String))
    (comp : String) (edges : List BREdge) (a b : String) :
    b ∈ adjGet
        (edges.foldl
          (fun m edge =>
            if edge.target ≠ "" then
              setAdd (setAdd m comp edge.target) edge.target comp
            else m)
          adj0) a ↔
      (b ∈ adjGet adj0 a ∨ ∃ e ∈ edges, e.target ≠ "" ∧
        ((a = comp ∧ b = e.target) ∨ (a = e.target ∧ b = comp))) := by
  induction edges generalizing adj0 with
  | nil => simp
  | cons e rest ih =>
    simp only [List.foldl_cons, List.mem_cons]
    by_cases ht : e.target ≠ ""
    · rw [if_pos ht, ih]
      rw [mem_adjGet_setAdd, mem_adjGet_setAdd]
      constructor
      · rintro (((⟨rfl, rfl⟩ | (⟨rfl, rfl⟩ | h)) ) | ⟨e', he', hcond⟩)
        · exact .inr ⟨e, .inl rfl, ht, .inr ⟨rfl, rfl⟩⟩
        · exact .inr ⟨e, .inl rfl, ht, .inl ⟨rfl, rfl⟩⟩
        · exact .inl h
        · exact .inr ⟨e', .inr he', hcond⟩
      · rintro (h | ⟨e', (rfl | he'), ht', hcond⟩)
        · exact .inl (.inr (.inr h))
        · rcases hcond with ⟨rfl, rfl⟩ | ⟨rfl, rfl⟩
          · exact .inl (.inr (.inl ⟨rfl, rfl⟩))
          · exact .inl (.inl ⟨rfl, rfl⟩)
        · exact .inr ⟨e', he', ht', hcond⟩
    · rw [if_neg ht, ih]
      push_neg at ht
      constructor
      · rintro (h | ⟨e', he', hcond⟩)
        · exact .inl h
        · exact .inr ⟨e', .inr he', hcond⟩
      · rintro (h | ⟨e', (rfl | he'), ht', hcond⟩)
        · exact .inl h
        · exact absurd ht ht'
        · exact .inr ⟨e', he', ht', hcond⟩

theorem mem_adjGet_buildAllTargets (graph : List (String × List BREdge))
    (a b : String) :
    b ∈ adjGet (buildAllTargets graph) a ↔
      ∃ ce ∈ graph, ∃ e ∈ ce.2, e.target ≠ "" ∧
        ((a = ce.1 ∧ b = e.target) ∨ (a = e.target ∧ b = ce.1)) := by
  have haux : ∀ (g : List (String × List BREdge))
      (adj0 : List (String × List String)),
      b ∈ adjGet (g.foldl
        (fun m ce => ce.2.foldl
          (fun m edge =>
            if edge.target ≠ "" then
              setAdd (setAdd m ce.1 edge.target) edge.target ce.1
            else m) m) adj0) a ↔
      (b ∈ adjGet adj0 a ∨ ∃ ce ∈ g, ∃ e ∈ ce.2, e.target ≠ "" ∧
        ((a = ce.1 ∧ b = e.target) ∨ (a = e.target ∧ b = ce.1))) := by
    intro g
    induction g with
    | nil => intro adj0; simp
    | cons ce rest ih =>
      intro adj0
      simp only [List.foldl_cons, List.mem_cons]
      rw [ih, mem_adjGet_edgeFold]
      constructor
      · rintro ((h | ⟨e, he, ht, hcond⟩) | ⟨ce', hce', e, he, ht, hcond⟩)
        · exact .inl h
        · exact .inr ⟨ce, .inl rfl, e, he, ht, hcond⟩
        · exact .inr ⟨ce', .inr hce', e, he, ht, hcond⟩
      · rintro (h | ⟨ce', (rfl | hce'), e, he, ht, hcond⟩)
        · exact .inl (.inl h)
        · exact .inl (.inr ⟨e, he, ht, hcond⟩)
        · exact .inr ⟨ce', hce', e, he, ht, hcond⟩
  unfold buildAllTargets
  exact (haux graph []).trans (by simp [adjGet])

theorem bfsInner_spec (nbrs : List String) :
    ∀ (st : List String × List String) (c : String),
      (c ∈ (nbrs.foldl
          (fun st2 nb =>
            if st2.1.contains nb then st2
            else (st2.1 ++ [nb], st2.2 ++ [nb])) st).1 ↔
        (c ∈ st.1 ∨ c ∈ nbrs)) ∧
      (c ∈ (nbrs.foldl
          (fun st2 nb =>
            if st2.1.contains nb then st2
            else (st2.1 ++ [nb], st2.2 ++ [nb])) st).2 ↔
        (c ∈ st.2 ∨ (c ∈ nbrs ∧ c ∉ st.1))) := by
  induction nbrs with
  | nil =>
    intro st c
    simp
  | cons nb rest ih =>
    intro st c
    simp only [List.foldl_cons]
    by_cases hc : st.1.contains nb = true
    · rw [if_pos hc]
      have hmem : nb ∈ st.1 := List.elem_iff.mp hc
      refine ⟨(ih st c).1.trans ?_, (ih st c).2.trans ?_⟩
      · simp only [List.mem_cons]
        constructor
        · rintro (h | h)
          · exact .inl h
          · exact .inr (.inr h)
        · rintro (h | (rfl | h))
          · exact .inl h
          · exact .inl hmem
          · exact .inr h
      · simp only [List.mem_cons]
        constructor
        · rintro (h | ⟨hr, hn⟩)
          · exact .inl h
          · exact .inr ⟨.inr hr, hn⟩
        · rintro (h | ⟨(rfl | hr), hn⟩)
          · exact .inl h
          · exact absurd hmem hn
          · exact .inr ⟨hr, hn⟩
    · rw [if_neg hc]
      have hnmem : nb ∉ st.1 := fun hm => hc (List.elem_iff.mpr hm)
      refine ⟨(ih _ c).1.trans ?_, (ih _ c).2.trans ?_⟩
      · simp only [List.mem_append, List.mem_cons, List.not_mem_nil,
          or_false]
        tauto
      · simp only [List.mem_append, List.mem_cons, List.not_mem_nil,
          or_false]
        constructor
        · rintro ((h | rfl) | ⟨hr, hn⟩)
          · exact .inl h
          · exact .inr ⟨.inl rfl, hnmem⟩
          · exact .inr ⟨.inr hr, fun h1 => hn (.inl h1)⟩
        · rintro (h | ⟨(rfl | hr), hn⟩)
          · exact .inl (.inl h)
          · exact .inl (.inr rfl)
          · by_cases hcnb : c = nb
            · exact .inl (.inr hcnb)
            · exact .inr ⟨hr, fun hor => hor.elim hn hcnb⟩

theorem bfsStep_spec (adj : List (String × List String))
    (frontier : List String) :
    ∀ (st : List String × List String) (c : String),
      (c ∈ (frontier.foldl
          (fun st comp =>
            (adjGet adj comp).foldl
              (fun st2 nb =>
                if st2.1.contains nb then st2
                else (st2.1 ++ [nb], st2.2 ++ [nb])) st) st).1 ↔
        (c ∈ st.1 ∨ ∃ u ∈ frontier, c ∈ adjGet adj u)) ∧
      (c ∈ (frontier.foldl
          (fun st comp =>
            (adjGet adj comp).foldl
              (fun st2 nb =>
                if st2.1.contains nb then st2
                else (st2.1 ++ [nb], st2.2 ++ [nb])) st) st).2 ↔
        (c ∈ st.2 ∨ ((∃ u ∈ frontier, c ∈ adjGet adj u) ∧ c ∉ st.1))) := by
  induction frontier with
  | nil =>
    intro st c
    simp
  | cons u rest ih =>
    intro st c
    simp only [List.foldl_cons]
    obtain ⟨hin1, hin2⟩ := bfsInner_spec (adjGet adj u) st c
    refine ⟨(ih _ c).1.trans ?_, (ih _ c).2.trans ?_⟩
    · rw [hin1]
      simp only [List.mem_cons]
      constructor
      · rintro ((h | h) | ⟨u', hu', he'⟩)
        · exact .inl h
        · exact .inr ⟨u, .inl rfl, h⟩
        · exact .inr ⟨u', .inr hu', he'⟩
      · rintro (h | ⟨u', (rfl | hu'), he'⟩)
        · exact .inl (.inl h)
        · exact .inl (.inr he')
        · exact .inr ⟨u', hu', he'⟩
    · rw [hin2, hin1]
      simp only [List.mem_cons]
      constructor
      · rintro ((h | ⟨he, hn⟩) | ⟨⟨u', hu', he'⟩, hn⟩)
        · exact .inl h
        · exact .inr ⟨⟨u, .inl rfl, he⟩, hn⟩
        · exact .inr ⟨⟨u', .inr hu', he'⟩, fun h1 => hn (.inl h1)⟩
      · rintro (h | ⟨⟨u', (rfl | hu'), he'⟩, hn⟩)
        · exact .inl (.inl h)
        · exact .inl (.inr ⟨he', hn⟩)
        · by_cases hcu : c ∈ adjGet adj u
          · exact .inl (.inr ⟨hcu, hn⟩)
          · exact .inr ⟨⟨u', hu', he'⟩, fun hor => hor.elim hn hcu⟩

theorem reachIn_mono {adj : List (String × List String)} {s : String} :
    ∀ {j k : Nat}, j ≤ k → ∀ {c}, reachIn adj s j c → reachIn adj s k c := by
  intro j k hjk
  induction hjk with
  | refl => exact fun h => h
  | step h2 ih =>
    intro c hr
    exact Or.inl (ih hr)

theorem distIs_succ_iff {adj : List (String × List String)} {s : String}
    {k : Nat} {c : String} :
    distIs adj s (k + 1) c ↔
      (reachIn adj s (k + 1) c ∧ ¬ reachIn adj s k c) := by
  unfold distIs
  constructor
  · rintro ⟨hr, hmin⟩
    exact ⟨hr, hmin k (Nat.lt_succ_self k)⟩
  · rintro ⟨hr, hnk⟩
    exact ⟨hr, fun j hj hrj =>
      hnk (reachIn_mono (Nat.lt_succ_iff.mp hj) hrj)⟩

theorem distIs_zero_iff {adj : List (String × List String)} {s : String}
    {c : String} : distIs adj s 0 c ↔ c = s := by
  unfold distIs
  exact ⟨fun h => h.1, fun h => ⟨h, fun j hj => absurd hj (Nat.not_lt_zero j)⟩⟩

theorem bfs_level_step (adj : List (String × List String)) (s : String)
    (k : Nat) (visited frontier : List String)
    (hv : ∀ c, c ∈ visited ↔ reachIn adj s k c)
    (hf : ∀ c, c ∈ frontier ↔ distIs adj s k c) :
    (∀ c, c ∈ (bfsStep adj visited frontier).1 ↔
      reachIn adj s (k + 1) c) ∧
    (∀ c, c ∈ (bfsStep adj visited frontier).2 ↔
      distIs adj s (k + 1) c) := by
  have hmin : ∀ u c, reachIn adj s k u → c ∈ adjGet adj u →
      ¬ reachIn adj s k c → distIs adj s k u := by
    intro u c hru he hnk
    refine ⟨hru, fun j hj hrj => hnk ?_⟩
    have hstep : reachIn adj s (j + 1) c := Or.inr ⟨u, hrj, he⟩
    exact reachIn_mono (Nat.succ_le_of_lt hj) hstep
  constructor
  · intro c
    unfold bfsStep
    rw [(bfsStep_spec adj frontier (visited, []) c).1]
    constructor
    · rintro (h | ⟨u, hu, he⟩)
      · exact reachIn_mono (Nat.le_succ k) ((hv c).mp h)
      · exact Or.inr ⟨u, ((hf u).mp hu).1, he⟩
    · intro hr
      have hr' : reachIn adj s k c ∨
          ∃ b, reachIn adj s k b ∧ c ∈ adjGet adj b := hr
      rcases hr' with hk | ⟨u, hru, he⟩
      · exact .inl ((hv c).mpr hk)
      · by_cases hc : reachIn adj s k c
        · exact .inl ((hv c).mpr hc)
        · exact .inr ⟨u, (hf u).mpr (hmin u c hru he hc), he⟩
  · intro c
    unfold bfsStep
    rw [(bfsStep_spec adj frontier (visited, []) c).2]
    simp only [List.not_mem_nil, false_or]
    rw [distIs_succ_iff]
    constructor
    · rintro ⟨⟨u, hu, he⟩, hnv⟩
      have hnk : ¬ reachIn adj s k c := fun h => hnv ((hv c).mpr h)
      exact ⟨Or.inr ⟨u, ((hf u).mp hu).1, he⟩, hnk⟩
    · rintro ⟨hr, hnk⟩
      have hr' : reachIn adj s k c ∨
          ∃ b, reachIn adj s k b ∧ c ∈ adjGet adj b := hr
      rcases hr' with hk | ⟨u, hru, he⟩
      · exact absurd hk hnk
      · exact ⟨⟨u, (hf u).mpr (hmin u c hru he hnk), he⟩,
          fun hv' => hnk ((hv c).mp hv')⟩

theorem bfsLoop_length (adj : List (String × List String)) :
    ∀ (d : Nat) (visited frontier : List String),
      (bfsLoop adj d visited frontier).length = d := by
  intro d
  induction d with
  | zero => intro visited frontier; rfl
  | succ d ih =>
    intro visited frontier
    simp only [bfsLoop, List.length_cons, ih]

theorem bfsLoop_spec (adj : List (String × List String)) (s : String) :
    ∀ (d k : Nat) (visited frontier : List String),
      (∀ c, c ∈ visited ↔ reachIn adj s k c) →
      (∀ c, c ∈ frontier ↔ distIs adj s k c) →
      ∀ i lvl, (bfsLoop adj d visited frontier).get? i = some lvl →
        (∀ c, c ∈ lvl ↔ distIs adj s (k + i + 1) c) ∧
        lvl.Sorted (fun a b => strLe a b = true) := by
  intro d
  induction d with
  | zero =>
    intro k v f hv hf i lvl hget
    simp [bfsLoop] at hget
  | succ d ih =>
    intro k v f hv hf i lvl hget
    obtain ⟨h1, h2⟩ := bfs_level_step adj s k v f hv hf
    cases i with
    | zero =>
      simp only [bfsLoop, List.get?_cons_zero, Option.some.injEq] at hget
      subst hget
      refine ⟨fun c => ?_, sorted_sortStr _⟩
      rw [mem_sortStr]
      simpa using h2 c
    | succ i =>
      simp only [bfsLoop, List.get?_cons_succ] at hget
      have hres := ih (k + 1) _ _ h1 h2 i lvl hget
      have harith : k + 1 + i + 1 = k + (i + 1) + 1 := by omega
      rw [harith] at hres
      exact hres

/-! # Claim C7 -/

/-- C7: the blast-radius BFS is correct — the adjacency map is the
bidirectional (symmetric) view of the supplied directed edge graph; the
walk produces exactly `depth` levels; level `i` contains exactly the
components whose minimum hop distance from the start is `i + 1` (so a
component visited at a shallower hop never reappears deeper, and
components unreachable within `depth` hops are omitted), each level
sorted by component identifier; and in the concrete scenario with edges
`my-app -> auth-service` and `auth-service -> db-layer`, depth 2 reports
`auth-service` at hop 1 and `db-layer` at hop 2, while depth 1 does not
report `db-layer`. -/
theorem blast_radius_bfs_characterization :
    (∀ (graph : List (String × List BREdge)) (a b : String),
      b ∈ adjGet (buildAllTargets graph) a ↔
        ((b ≠ "" ∧ hasEdge graph a b) ∨ (a ≠ "" ∧ hasEdge graph b a))) ∧
    (∀ (graph : List (String × List BREdge)) (start : String)
        (depth : Nat),
      (blast_radius_levels graph start depth).length = depth ∧
      (∀ i lvl,
        (blast_radius_levels graph start depth).get? i = some lvl →
          (∀ c, c ∈ lvl ↔
            distIs (buildAllTargets graph) start (i + 1) c) ∧
          lvl.Sorted (fun a b => strLe a b = true))) ∧
    blast_radius_levels scenarioGraph "my-app" 2 =
      [["auth-service"], ["db-layer"]] ∧
    blast_radius_levels scenarioGraph "my-app" 1 = [["auth-service"]] := by
  refine ⟨?_, ?_, by decide, by decide⟩
  · intro graph a b
    rw [mem_adjGet_buildAllTargets]
    unfold hasEdge
    constructor
    · rintro ⟨ce, hce, e, he, ht, hcase⟩
      rcases hcase with ⟨ha, hb⟩ | ⟨ha, hb⟩
      · exact .inl ⟨by rw [hb]; exact ht, ce, hce, ha.symm, e, he, hb.symm⟩
      · exact .inr ⟨by rw [ha]; exact ht, ce, hce, hb.symm, e, he, ha.symm⟩
    · rintro (⟨hb, ce, hce, ha, e, he, ht⟩ | ⟨ha, ce, hce, hb, e, he, ht⟩)
      · exact ⟨ce, hce, e, he, by rw [ht]; exact hb, .inl ⟨ha.symm, ht.symm⟩⟩
      · exact ⟨ce, hce, e, he, by rw [ht]; exact ha, .inr ⟨ht.symm, hb.symm⟩⟩
  · intro graph s depth
    constructor
    · exact bfsLoop_length _ depth [s] [s]
    · intro i lvl hget
      have h0v : ∀ c, c ∈ [s] ↔
          reachIn (buildAllTargets graph) s 0 c := by
        intro c
        simp [reachIn]
      have h0f : ∀ c, c ∈ [s] ↔
          distIs (buildAllTargets graph) s 0 c := by
        intro c
        rw [distIs_zero_iff]
        simp
      have hres := bfsLoop_spec (buildAllTargets graph) s depth 0 [s] [s]
        h0v h0f i lvl hget
      simpa using hres

/-- Witness for C7 at the scenario: hop-1 membership of auth-service. -/
theorem blast_radius_bfs_characterization_witness :
    "auth-service" ∈ ["auth-service"] ↔
      distIs (buildAllTargets scenarioGraph) "my-app" 1 "auth-service" :=
  ((blast_radius_bfs_characterization.2.1 scenarioGraph "my-app" 2).2 0
    ["auth-service"] (by rfl)).1 "auth-service"

/-! # Claim C2 -/

/-- C2: deserializing the serialized form is NOT an exact inverse.  On a
tree with a single file node (whose `children` is the dataclass default
`()`, a Python tuple), `from_json(to_json(tree))` rebuilds the node with
`children` as a Python list (`ndata.get("children", [])`), and
`() == []` is `False` in Python, so the restored tree is not deep-equal
to the original: the `children` field does not round-trip. -/
theorem from_json_to_json_not_deep_equal :
    MerkleTree.from_json (MerkleTree.to_json roundTripTree) =
      .ok roundTripRestored ∧
    roundTripRestored ≠ roundTripTree ∧
    (roundTripTree.findNode "app.py").map MerkleNode.children =
      some (.tup []) ∧
    (roundTripRestored.findNode "app.py").map MerkleNode.children =
      some (.lst []) :=
  ⟨rfl, by decide, rfl, rfl⟩

end Chronicler
